import Mathlib

/-!
A verification development for the TSE-Muffin scheduling core: the round/group
data model, the interval timer, the config cache provider, the pairing engine
(`makeGroups`), the periodic jobs, and the reaction handler, shallowly embedded
from the TypeScript sources.  External collaborators (MongoDB, the Slack
client) are modelled by their contracts: queries become filters over explicit
lists of documents, sends become outcome-valued environments, and
`Math.random()` becomes an explicit stream of naturals.
-/

namespace Muffin

/-- `Result<Value, Error>` from `src/util/result.ts`. -/
inductive Result (α ε : Type) where
  | ok (value : α) : Result α ε
  | err (error : ε) : Result α ε
deriving DecidableEq, Repr

/-- The `GROUP_STATUSES` enumeration of `src/models/GroupModel.ts`. -/
inductive GroupStatus where
  | unknown
  | met
  | did_not_meet
  | scheduled
deriving DecidableEq, Repr

/-- A `Round` document (`src/models/RoundModel.ts`).  Instants are milliseconds
since the epoch; `id` stands for the Mongo `_id`. -/
structure Round where
  id : Nat
  channel : String
  matchingScheduledFor : Int
  matchingCompleted : Bool
  allInitialMessagesSent : Bool
  reminderMessageScheduledFor : Int
  allReminderMessagesSent : Bool
  finalMessageScheduledFor : Int
  allFinalMessagesSent : Bool
  summaryMessageScheduledFor : Int
  summaryMessageTimestamp : Option String
deriving DecidableEq, Repr

/-- A `Group` document (`src/models/GroupModel.ts`).  `round` is the foreign
key to the owning round's `id`; `channel` is the ID of the direct-message
conversation with the group, set after the initial message is sent. -/
structure Group where
  round : Nat
  userIds : List String
  status : GroupStatus
  channel : Option String
  initialMessageTimestamp : Option String
  reminderMessageTimestamp : Option String
  finalMessageTimestamp : Option String
deriving DecidableEq, Repr

/-! ## IntervalTimer (`src/util/timer.ts`)

`wait()` increments the call counter and sleeps until
`startMs + waitCount * intervalMs`.  The embedding returns that deadline
together with the updated timer; `sleep` itself only guarantees a lower bound
on the resolution time, captured by `sleepResolveLowerBound`. -/

structure IntervalTimer where
  intervalMs : Int
  startMs : Int
  waitCount : Nat
deriving DecidableEq, Repr

/-- The constructor `new IntervalTimer(intervalMs, startMs)`: the call counter
starts at zero. -/
def IntervalTimer.new (intervalMs startMs : Int) : IntervalTimer :=
  ⟨intervalMs, startMs, 0⟩

/-- One `wait()` call: bump the counter, compute the deadline
`startMs + waitCount * intervalMs`. -/
def IntervalTimer.wait (t : IntervalTimer) : Int × IntervalTimer :=
  let newCount := t.waitCount + 1
  (t.startMs + (newCount : Int) * t.intervalMs, { t with waitCount := newCount })

/-- `sleep(ms)` resolves after at least `ms` milliseconds (with negative `ms`
clamped to zero by `setTimeout`), so a `wait()` issued at `nowMs` towards
`targetMs` can resolve no earlier than `max nowMs targetMs`. -/
def sleepResolveLowerBound (nowMs targetMs : Int) : Int :=
  max nowMs targetMs

/-- The timer after `n` completed `wait()` calls. -/
def IntervalTimer.afterWaits (t : IntervalTimer) : Nat → IntervalTimer
  | 0 => t
  | n + 1 => ((t.afterWaits n).wait).2

/-- The deadline computed by the `n`-th `wait()` call, counting from 1. -/
def IntervalTimer.nthDeadline (t : IntervalTimer) (n : Nat) : Int :=
  ((t.afterWaits (n - 1)).wait).1

theorem IntervalTimer.afterWaits_fields (t : IntervalTimer) (n : Nat) :
    (t.afterWaits n).intervalMs = t.intervalMs ∧
    (t.afterWaits n).startMs = t.startMs ∧
    (t.afterWaits n).waitCount = t.waitCount + n := by
  induction n with
  | zero => exact ⟨rfl, rfl, rfl⟩
  | succ k ih =>
    obtain ⟨h1, h2, h3⟩ := ih
    refine ⟨?_, ?_, ?_⟩ <;>
      simp [IntervalTimer.afterWaits, IntervalTimer.wait, h1, h2, h3, Nat.add_assoc]

theorem IntervalTimer.nthDeadline_eq (I S : Int) (n : Nat) (hn : 1 ≤ n) :
    (IntervalTimer.new I S).nthDeadline n = S + (n : Int) * I := by
  obtain ⟨h1, h2, h3⟩ := (IntervalTimer.new I S).afterWaits_fields (n - 1)
  simp only [IntervalTimer.nthDeadline, IntervalTimer.wait, h1, h2, h3]
  have : n - 1 + 1 = n := Nat.succ_pred_eq_of_pos hn
  simp [IntervalTimer.new, this]

/-- C2: for an `IntervalTimer` with interval `I` and start `S`, the `N`-th
`wait()` call (counting from 1) computes and waits for the deadline
`S + N*I`; distinct calls never receive the same deadline; and for
`I = 1000`, `S = 0` the first three calls target `1000`, `2000`, `3000` and can
resolve no earlier than those instants, whatever the actual call times. -/
theorem intervalTimer_wait_deadlines (I S : Int) (hI : 0 < I) (n m : Nat)
    (hn : 1 ≤ n) (hm : 1 ≤ m) (hnm : n ≠ m) :
    (IntervalTimer.new I S).nthDeadline n = S + (n : Int) * I ∧
    (IntervalTimer.new I S).nthDeadline n ≠ (IntervalTimer.new I S).nthDeadline m ∧
    (IntervalTimer.new 1000 0).nthDeadline 1 = 1000 ∧
    (IntervalTimer.new 1000 0).nthDeadline 2 = 2000 ∧
    (IntervalTimer.new 1000 0).nthDeadline 3 = 3000 ∧
    (∀ nowMs : Int, ∀ k : Nat, 1 ≤ k →
      1000 * (k : Int) ≤
        sleepResolveLowerBound nowMs ((IntervalTimer.new 1000 0).nthDeadline k)) := by
  refine ⟨IntervalTimer.nthDeadline_eq I S n hn, ?_, ?_, ?_, ?_, ?_⟩
  · rw [IntervalTimer.nthDeadline_eq I S n hn, IntervalTimer.nthDeadline_eq I S m hm]
    intro h
    have h' : (n : Int) * I = (m : Int) * I := by omega
    have := mul_right_cancel₀ (ne_of_gt hI) h'
    exact hnm (by exact_mod_cast this)
  · rw [IntervalTimer.nthDeadline_eq 1000 0 1 (by omega)]; norm_num
  · rw [IntervalTimer.nthDeadline_eq 1000 0 2 (by omega)]; norm_num
  · rw [IntervalTimer.nthDeadline_eq 1000 0 3 (by omega)]; norm_num
  · intro nowMs k hk
    rw [sleepResolveLowerBound, IntervalTimer.nthDeadline_eq 1000 0 k hk]
    have : 1000 * (k : Int) ≤ 0 + (k : Int) * 1000 := by ring_nf; omega
    exact le_trans this (le_max_right _ _)

/-- Witness for C2 at `I = 5`, `S = 7`, `n = 1`, `m = 2`. -/
theorem intervalTimer_wait_deadlines_witness :
    (IntervalTimer.new 5 7).nthDeadline 1 = 7 + (1 : Int) * 5 ∧
    (IntervalTimer.new 5 7).nthDeadline 1 ≠ (IntervalTimer.new 5 7).nthDeadline 2 := by
  have h := intervalTimer_wait_deadlines 5 7 (by omega) 1 2 (by omega) (by omega) (by omega)
  exact ⟨h.1, h.2.1⟩

/-! ## ConfigCacheProvider (`src/services/config-cache.ts`)

`get(app)` returns the stored `loadingPromise`, starting a load (and storing
its promise) only when none is stored; `reload(app)` nulls the stored promise,
notifies observers, and calls `get`.  Promises are modelled by the index of the
load attempt they stand for: attempt `k` is the `k`-th call to `load` made by
the provider, and an external environment `Nat → Result α String` decides each
attempt's eventual settlement.  The provider state never consults that
environment: whether attempt `k` succeeded or failed, the stored promise stays
`some k` until `reload` clears it. -/

structure ConfigCacheProvider where
  loadingPromise : Option Nat
  nextLoadIdx : Nat
deriving DecidableEq, Repr

/-- The provider as constructed at module load: no promise stored, no load
attempted yet. -/
def ConfigCacheProvider.empty : ConfigCacheProvider :=
  ⟨none, 0⟩

/-- `get(app)`: if `loadingPromise === null`, start one load (the caller will
await the new attempt); otherwise return the stored promise unchanged. -/
def ConfigCacheProvider.get (s : ConfigCacheProvider) : Nat × ConfigCacheProvider :=
  match s.loadingPromise with
  | none => (s.nextLoadIdx, ⟨some s.nextLoadIdx, s.nextLoadIdx + 1⟩)
  | some k => (k, s)

/-- `reload(app)`: clear the stored promise (observer notification does not
touch this state) and delegate to `get`. -/
def ConfigCacheProvider.reload (s : ConfigCacheProvider) : Nat × ConfigCacheProvider :=
  ConfigCacheProvider.get ⟨none, s.nextLoadIdx⟩

/-- C6 counterexample: after a first `get()` whose load attempt (index 0)
fails — the environment below settles every attempt with an error — the next
`get()` does **not** trigger a fresh load attempt: it hands back the same
failed promise (index 0) and leaves the provider state untouched, with no new
load started. -/
theorem configCacheProvider_failed_load_not_retried :
    (ConfigCacheProvider.empty.get).1 = 0 ∧
    ((fun _ : Nat => (Result.err "could not determine bot user ID" :
        Result String String)) 0 =
      Result.err "could not determine bot user ID") ∧
    ((ConfigCacheProvider.empty.get).2).get = (0, (ConfigCacheProvider.empty.get).2) ∧
    ((ConfigCacheProvider.empty.get).2).get.2.nextLoadIdx = 1 :=
  ⟨rfl, rfl, rfl, rfl⟩

/-- C6 amended: `get()` on a provider with no stored promise starts exactly one
load (index `n`, with the attempt counter bumped) and stores it; `get()` on a
provider with a stored promise — whether that attempt later succeeds or fails —
returns that same promise with the state unchanged, so concurrent callers all
await the one in-flight attempt and later callers reuse the settled one; a
fresh load attempt happens only after `reload()` clears the stored promise. -/
theorem configCacheProvider_single_flight (n k : Nat) :
    (ConfigCacheProvider.mk none n).get = (n, ⟨some n, n + 1⟩) ∧
    (ConfigCacheProvider.mk (some k) n).get = (k, ⟨some k, n⟩) ∧
    ((ConfigCacheProvider.mk none n).get).2.get = (n, ⟨some n, n + 1⟩) ∧
    (ConfigCacheProvider.mk (some k) n).reload = (n, ⟨some n, n + 1⟩) :=
  ⟨rfl, rfl, rfl, rfl⟩

/-! ## Pairing engine (`src/services/round.ts`: `makeGroups` and friends)

`Math.random()` is modelled by a stream of naturals: the JS expression
`Math.floor(Math.random() * bound)` becomes "read the next stream element, mod
`bound`", which like the original yields a value `< bound` whenever
`bound > 0`. -/

structure Rng where
  stream : Nat → Nat
  pos : Nat

/-- Draw `Math.floor(Math.random() * bound)` and advance the stream. -/
def Rng.next (r : Rng) (bound : Nat) : Nat × Rng :=
  (r.stream r.pos % bound, ⟨r.stream, r.pos + 1⟩)

/-- The three-assignment swap idiom
`temp = a[i]; a[i] = a[j]; a[j] = temp` on a list (`d` is only read when an
index is out of bounds, which no caller below does). -/
def listSwap {α : Type} (l : List α) (i j : Nat) (d : α) : List α :=
  (l.set i (l.getD j d)).set j (l.getD i d)

/-- The Fisher–Yates loop of `shuffled`: for `size` from `n` down to `2`, swap
index `size - 1` with a random index `j < size`. -/
def fisherYates {α : Type} (d : α) : Nat → List α → Rng → List α × Rng
  | 0, l, r => (l, r)
  | 1, l, r => (l, r)
  | n + 2, l, r =>
    let (j, r') := r.next (n + 2)
    fisherYates d (n + 1) (listSwap l (n + 1) j d) r'

/-- `shuffled(values)`: a shuffled shallow copy of the input array. -/
def shuffled (values : List String) (r : Rng) : List String × Rng :=
  fisherYates "" values.length values r

/-- The keys `group.userIds[i] + group.userIds[j]` (plain string
concatenation) added to `prevPairs` for one previous group: all ordered pairs
of distinct indices. -/
def pairKeys (userIds : List String) : List String :=
  (List.range userIds.length).flatMap fun i =>
    (List.range userIds.length).filterMap fun j =>
      if i ≠ j then some (userIds.getD i "" ++ userIds.getD j "") else none

/-- The `prevPairs` set built by `makeGroups` from the previous groups
(membership below is `Set.has`, i.e. list containment). -/
def prevPairsSet (prevGroups : List Group) : List String :=
  prevGroups.flatMap fun g => pairKeys g.userIds

/-- One step of the improvement scan at even index `i` (with `i + 1` a valid
index): if the adjacent pair has been paired before, swap a random one of the
two (`i + s`, `s < 2`) with a uniformly random position `dest < length`. -/
def improveStep (pp : List String) (acc : List String × Rng) (i : Nat) :
    List String × Rng :=
  let users := acc.1
  let r := acc.2
  if pp.contains (users.getD i "" ++ users.getD (i + 1) "") then
    let (s, r₁) := r.next 2
    let (dest, r₂) := r₁.next users.length
    (listSwap users (i + s) dest "", r₂)
  else
    (users, r)

/-- The even indices `i` with `i + 1 < len` scanned by one improvement pass. -/
def pairIndices (len : Nat) : List Nat :=
  (List.range (len / 2)).map fun k => 2 * k

/-- One pass `for (let i = 0; i + 1 < users.length; i += 2)` of the
improvement loop (the list length never changes, so the indices can be
computed up front). -/
def improvePass (pp : List String) (acc : List String × Rng) :
    List String × Rng :=
  (pairIndices acc.1.length).foldl (improveStep pp) acc

/-- The 20 bounded improvement iterations of `makeGroups`. -/
def improveIterations (pp : List String) (acc : List String × Rng) :
    List String × Rng :=
  (List.range 20).foldl (fun a _ => improvePass pp a) acc

/-- The pairing loop `while (i + 1 < users.length)`: consecutive pairs in
order, plus the unpaired last element if the length is odd. -/
def chunkPairs : List String → List (List String) × Option String
  | [] => ([], none)
  | [x] => ([], some x)
  | a :: b :: rest => ([a, b] :: (chunkPairs rest).1, (chunkPairs rest).2)

/-- `if (i < users.length) groups[0].push(users[i])`: the leftover participant
joins the first group.  (The `([], some _)` case cannot arise for the
length-≥-4 inputs that reach this code; the original would throw there.) -/
def attachLeftover : List (List String) × Option String → List (List String)
  | (pairs, none) => pairs
  | ([], some _) => []
  | (g :: rest, some x) => (g ++ [x]) :: rest

/-- `makeGroups(users, prevGroups)` from `src/services/round.ts`: empty input
gives no groups; up to three users give one group as-is; otherwise shuffle,
run the bounded anti-repeat improvement, and split into pairs with the
leftover joining the first pair. -/
def makeGroups (users : List String) (prevGroups : List Group) (r : Rng) :
    List (List String) :=
  if users.length = 0 then []
  else if users.length ≤ 3 then [users]
  else
    let shufR := shuffled users r
    let pp := prevPairsSet prevGroups
    let arranged := (improveIterations pp shufR).1
    attachLeftover (chunkPairs arranged)

theorem listSwap_perm {α : Type} [DecidableEq α] (l : List α) (i j : Nat) (d : α)
    (hi : i < l.length) (hj : j < l.length) : (listSwap l i j d).Perm l := by
  rw [List.perm_iff_count]
  intro a
  unfold listSwap
  rw [List.getD_eq_getElem l d hj, List.getD_eq_getElem l d hi]
  have hj2 : j < (l.set i l[j]).length := by simpa using hj
  rw [List.count_set _ _ _ _ hj2, List.count_set _ _ _ _ hi]
  have hget : (l.set i l[j])[j] = l[j] := by
    rw [List.getElem_set]
    split <;> rfl
  rw [hget]
  by_cases h1 : l[i] = a <;> by_cases h2 : l[j] = a <;> simp [h1, h2]
  · have : 0 < l.count a := List.count_pos_iff.mpr (h1 ▸ List.getElem_mem hi)
    omega
  · have : 0 < l.count a := List.count_pos_iff.mpr (h1 ▸ List.getElem_mem hi)
    omega

theorem listSwap_length {α : Type} (l : List α) (i j : Nat) (d : α) :
    (listSwap l i j d).length = l.length := by
  simp [listSwap]

theorem fisherYates_perm {α : Type} [DecidableEq α] (d : α) :
    ∀ (n : Nat) (l : List α) (r : Rng), n ≤ l.length →
      ((fisherYates d n l r).1).Perm l
  | 0, l, r, _ => by simp [fisherYates]
  | 1, l, r, _ => by simp [fisherYates]
  | n + 2, l, r, h => by
    have hswap := listSwap_perm l (n + 1) ((r.next (n + 2)).1) d
      (by omega) (lt_of_lt_of_le (Nat.mod_lt _ (by omega)) h)
    have hlen : (listSwap l (n + 1) ((r.next (n + 2)).1) d).length = l.length :=
      listSwap_length ..
    have hrec := fisherYates_perm d (n + 1)
      (listSwap l (n + 1) ((r.next (n + 2)).1) d) ((r.next (n + 2)).2)
      (by omega)
    show ((fisherYates d (n + 1)
      (listSwap l (n + 1) ((r.next (n + 2)).1) d) ((r.next (n + 2)).2)).1).Perm l
    exact hrec.trans hswap

theorem shuffled_perm (values : List String) (r : Rng) :
    ((shuffled values r).1).Perm values :=
  fisherYates_perm "" values.length values r (le_refl _)

theorem improveStep_perm (pp : List String) (acc : List String × Rng) (i : Nat)
    (h : i + 1 < acc.1.length) : ((improveStep pp acc i).1).Perm acc.1 := by
  simp only [improveStep, Rng.next]
  split
  · exact listSwap_perm _ _ _ _
      (by have := Nat.mod_lt (acc.2.stream acc.2.pos) (show 0 < 2 by omega); omega)
      (Nat.mod_lt _ (by omega))
  · exact List.Perm.refl _

theorem foldl_improveStep_perm (pp : List String) :
    ∀ (idxs : List Nat) (acc : List String × Rng),
      (∀ i ∈ idxs, i + 1 < acc.1.length) →
      ((idxs.foldl (improveStep pp) acc).1).Perm acc.1
  | [], acc, _ => List.Perm.refl _
  | i :: rest, acc, h => by
    have hstep := improveStep_perm pp acc i (h i (by simp))
    have hlen : (improveStep pp acc i).1.length = acc.1.length :=
      hstep.length_eq
    have hrest := foldl_improveStep_perm pp rest (improveStep pp acc i)
      (fun k hk => hlen ▸ h k (by simp [hk]))
    exact (by simpa using hrest.trans hstep :
      (((i :: rest).foldl (improveStep pp) acc).1).Perm acc.1)

theorem improvePass_perm (pp : List String) (acc : List String × Rng) :
    ((improvePass pp acc).1).Perm acc.1 := by
  apply foldl_improveStep_perm
  intro i hi
  simp only [pairIndices, List.mem_map, List.mem_range] at hi
  obtain ⟨k, hk, rfl⟩ := hi
  omega

theorem improveIterations_perm (pp : List String) (acc : List String × Rng) :
    ((improveIterations pp acc).1).Perm acc.1 := by
  unfold improveIterations
  generalize List.range 20 = l
  induction l generalizing acc with
  | nil => exact List.Perm.refl _
  | cons x rest ih =>
    exact (by simpa using (ih (improvePass pp acc)).trans (improvePass_perm pp acc) :
      (((x :: rest).foldl (fun a _ => improvePass pp a) acc).1).Perm acc.1)

theorem chunkPairs_spec : ∀ l : List String,
    ((chunkPairs l).1).flatten ++ ((chunkPairs l).2).toList = l ∧
    (∀ g ∈ (chunkPairs l).1, g.length = 2) ∧
    (((chunkPairs l).2 = none) ↔ l.length % 2 = 0) ∧
    ((chunkPairs l).1).length = l.length / 2
  | [] => by simp [chunkPairs]
  | [x] => by simp [chunkPairs]
  | a :: b :: rest => by
    obtain ⟨h1, h2, h3, h4⟩ := chunkPairs_spec rest
    refine ⟨?_, ?_, ?_, ?_⟩
    · simp only [chunkPairs, List.flatten_cons, List.cons_append, List.append_assoc]
      simp [h1]
    · intro g hg
      simp only [chunkPairs, List.mem_cons] at hg
      rcases hg with rfl | hg
      · rfl
      · exact h2 g hg
    · simp only [chunkPairs, List.length_cons]
      rw [h3]
      omega
    · simp [chunkPairs, h4]; omega

theorem makeGroups_eq_of_big (users : List String) (prevGroups : List Group)
    (r : Rng) (h : 4 ≤ users.length) :
    makeGroups users prevGroups r =
      attachLeftover (chunkPairs
        ((improveIterations (prevPairsSet prevGroups) (shuffled users r)).1)) := by
  rw [makeGroups, if_neg (by omega), if_neg (by omega)]

theorem attachLeftover_none (pairs : List (List String)) :
    attachLeftover (pairs, none) = pairs := by
  cases pairs <;> rfl

theorem attachLeftover_some_cons (g : List String) (rest : List (List String))
    (x : String) : attachLeftover (g :: rest, some x) = (g ++ [x]) :: rest := rfl

theorem attachLeftover_chunkPairs_spec (arranged : List String)
    (hbig : 4 ≤ arranged.length) :
    ((attachLeftover (chunkPairs arranged)).flatten).Perm arranged ∧
    (∀ g ∈ attachLeftover (chunkPairs arranged), g.length = 2 ∨ g.length = 3) ∧
    ((attachLeftover (chunkPairs arranged)).countP (fun g => g.length == 3) ≤ 1) ∧
    (((attachLeftover (chunkPairs arranged)).countP (fun g => g.length == 3) = 1)
      ↔ arranged.length % 2 = 1) := by
  obtain ⟨h1, h2, h3, h4⟩ := chunkPairs_spec arranged
  have hsplit : chunkPairs arranged =
      ((chunkPairs arranged).1, (chunkPairs arranged).2) := rfl
  cases hcase : (chunkPairs arranged).2 with
  | none =>
    have hal : attachLeftover (chunkPairs arranged) = (chunkPairs arranged).1 := by
      rw [hsplit, hcase, attachLeftover_none]
    have hflat : ((chunkPairs arranged).1).flatten = arranged := by
      rw [hcase] at h1
      simpa using h1
    have heven : arranged.length % 2 = 0 := h3.mp hcase
    have hzero : ((chunkPairs arranged).1).countP (fun g => g.length == 3) = 0 :=
      List.countP_eq_zero.mpr fun g hg => by simp [h2 g hg]
    refine ⟨?_, ?_, ?_, ?_⟩
    · rw [hal, hflat]
    · intro g hg
      rw [hal] at hg
      exact Or.inl (h2 g hg)
    · rw [hal, hzero]
      omega
    · rw [hal, hzero]
      omega
  | some x =>
    have hlen2 : 2 ≤ ((chunkPairs arranged).1).length := by omega
    obtain ⟨g, rest, hgr⟩ :
        ∃ g rest, (chunkPairs arranged).1 = g :: rest := by
      cases hp : (chunkPairs arranged).1 with
      | nil => rw [hp] at hlen2; simp at hlen2
      | cons g rest => exact ⟨g, rest, rfl⟩
    have hal : attachLeftover (chunkPairs arranged) = (g ++ [x]) :: rest := by
      rw [hsplit, hcase, hgr, attachLeftover_some_cons]
    have hflat : (g ++ rest.flatten) ++ [x] = arranged := by
      rw [hcase, hgr] at h1
      simpa using h1
    have hg2 : g.length = 2 := h2 g (hgr ▸ List.mem_cons_self ..)
    have hrest2 : ∀ h ∈ rest, h.length = 2 :=
      fun h hh => h2 h (hgr ▸ List.mem_cons_of_mem _ hh)
    have hodd : arranged.length % 2 = 1 := by
      rcases Nat.mod_two_eq_zero_or_one arranged.length with h | h
      · rw [← h3] at h
        rw [h] at hcase
        cases hcase
      · exact h
    have hzero : rest.countP (fun g => g.length == 3) = 0 :=
      List.countP_eq_zero.mpr fun h hh => by simp [hrest2 h hh]
    have hcount : ((g ++ [x]) :: rest).countP (fun g => g.length == 3) = 1 := by
      rw [List.countP_cons]
      simp [hzero, List.length_append, hg2]
    refine ⟨?_, ?_, ?_, ?_⟩
    · rw [hal]
      have e1 : ((g ++ [x]) :: rest).flatten = g ++ ([x] ++ rest.flatten) := by
        simp [List.flatten_cons]
      have hmid : (g ++ ([x] ++ rest.flatten)).Perm (g ++ (rest.flatten ++ [x])) :=
        List.Perm.append_left g List.perm_append_comm
      have e2 : g ++ (rest.flatten ++ [x]) = (g ++ rest.flatten) ++ [x] := by
        simp [List.append_assoc]
      rw [e1, ← hflat, ← e2]
      exact hmid
    · intro h hh
      rw [hal] at hh
      rcases List.mem_cons.mp hh with rfl | hh
      · right
        simp [List.length_append, hg2]
      · exact Or.inl (hrest2 h hh)
    · rw [hal, hcount]
    · rw [hal, hcount]
      omega

/-- C1 (amended): `makeGroups` on the empty list returns **no** groups (not
one); on 1–3 participants it returns exactly one group whose membership is the
input; on 4 or more (distinct) participants it returns a partition: the
flattened output is a permutation of the input (so the union of memberships is
the input set, with no duplicates and every participant in exactly one group),
every group has size 2 or 3, at most one group has size 3, and exactly one
group has size 3 iff the participant count is odd. -/
theorem makeGroups_partition (users : List String) (prevGroups : List Group)
    (r : Rng) :
    makeGroups [] prevGroups r = [] ∧
    (users ≠ [] → users.length ≤ 3 → makeGroups users prevGroups r = [users]) ∧
    (4 ≤ users.length → users.Nodup →
      ((makeGroups users prevGroups r).flatten).Perm users ∧
      ((makeGroups users prevGroups r).flatten).Nodup ∧
      (∀ u, u ∈ users ↔ ∃ g ∈ makeGroups users prevGroups r, u ∈ g) ∧
      (∀ g ∈ makeGroups users prevGroups r, g.length = 2 ∨ g.length = 3) ∧
      (makeGroups users prevGroups r).countP (fun g => g.length == 3) ≤ 1 ∧
      ((makeGroups users prevGroups r).countP (fun g => g.length == 3) = 1 ↔
        users.length % 2 = 1)) := by
  refine ⟨by simp [makeGroups], ?_, ?_⟩
  · intro hne hle
    rw [makeGroups, if_neg (fun h => hne (List.length_eq_zero.mp h)), if_pos hle]
  · intro h4 hnd
    rw [makeGroups_eq_of_big users prevGroups r h4]
    have hperm : ((improveIterations (prevPairsSet prevGroups)
        (shuffled users r)).1).Perm users :=
      (improveIterations_perm _ _).trans (shuffled_perm users r)
    have hlen : (improveIterations (prevPairsSet prevGroups)
        (shuffled users r)).1.length = users.length := hperm.length_eq
    obtain ⟨p1, p2, p3, p4⟩ := attachLeftover_chunkPairs_spec
      ((improveIterations (prevPairsSet prevGroups) (shuffled users r)).1)
      (by omega)
    have hflatperm := p1.trans hperm
    refine ⟨hflatperm, (hflatperm.nodup_iff).mpr hnd, ?_, p2, p3, by rw [p4, hlen]⟩
    intro u
    constructor
    · intro h
      exact List.mem_flatten.mp (hflatperm.mem_iff.mpr h)
    · rintro ⟨g, hg, hu⟩
      exact hflatperm.mem_iff.mp (List.mem_flatten.mpr ⟨g, hg, hu⟩)

/-- A concrete deterministic random source for evaluating the pairing engine:
every draw reads 0. -/
def rng0 : Rng := ⟨fun _ => 0, 0⟩

/-- C1 counterexample: on the empty participant list, `makeGroups` returns
zero groups, not "exactly one group whose membership equals the input". -/
theorem makeGroups_empty_returns_no_groups :
    makeGroups [] [] rng0 = [] ∧ (makeGroups [] [] rng0).length ≠ 1 :=
  ⟨rfl, by decide⟩

/-- A concrete five-participant pool for evaluating `makeGroups`. -/
def demoUsers : List String := ["u1", "u2", "u3", "u4", "u5"]

/-- Witness for C1 at a concrete odd-sized pool of five distinct users. -/
theorem makeGroups_partition_witness :
    ((makeGroups demoUsers [] rng0).flatten).Perm demoUsers ∧
    (makeGroups demoUsers [] rng0).countP (fun g => g.length == 3) = 1 := by
  have h := (makeGroups_partition demoUsers [] rng0).2.2 (by decide) (by decide)
  exact ⟨h.1, h.2.2.2.2.2.mpr (by decide)⟩

/-! ## Matching (`createGroups` in `src/services/round.ts`, `MatchingJob` in
the jobs module)

`getUsersToMatch` and the Slack membership fetch are external; their combined
outcome enters as a `Result`.  `createGroups` pairs the users and, in one
transaction, inserts the new `Group` documents (status `unknown`, no channel,
no timestamps) and sets the round's `matchingCompleted` flag. -/

/-- `createGroups(app, round)`: `usersResult` is the outcome of
`getUsersToMatch` (the channel membership minus the bot), `prevGroups` the
result of `getPreviousPairings`.  Returns the updated round and the inserted
groups, or the propagated error. -/
def createGroups (usersResult : Result (List String) String)
    (prevGroups : List Group) (rng : Rng) (round : Round) :
    Result (Round × List Group) String :=
  match usersResult with
  | .err e => .err ("could not get users to match: " ++ e)
  | .ok users =>
    .ok ({ round with matchingCompleted := true },
      (makeGroups users prevGroups rng).map fun userIds =>
        { round := round.id
          userIds := userIds
          status := .unknown
          channel := none
          initialMessageTimestamp := none
          reminderMessageTimestamp := none
          finalMessageTimestamp := none })

/-- The `MatchingJob.run` due-query:
`RoundModel.find({ matchingCompleted: false, matchingScheduledFor: { $lte: new Date() } })`. -/
def dueMatchingRounds (rounds : List Round) (now : Int) : List Round :=
  rounds.filter fun r =>
    r.matchingCompleted == false && decide (r.matchingScheduledFor ≤ now)

/-- C7: a round with `matchingCompleted = true` is never selected by the
matching due-query, whatever `now` is; and a successful `createGroups` leaves
the round with `matchingCompleted = true`, so the matching transition runs at
most once per round even when the job fires repeatedly with the same `now`. -/
theorem matching_not_selected_after_completion (r : Round) (rounds : List Round)
    (now : Int) (hc : r.matchingCompleted = true) :
    r ∉ dueMatchingRounds rounds now ∧
    (∀ (usersResult : Result (List String) String) (prevGroups : List Group)
      (rng : Rng) (round : Round) (round' : Round) (gs : List Group),
      createGroups usersResult prevGroups rng round = .ok (round', gs) →
      round'.matchingCompleted = true) := by
  constructor
  · intro hmem
    have := List.of_mem_filter hmem
    simp [hc] at this
  · intro usersResult prevGroups rng round round' gs h
    cases usersResult with
    | err e => cases h
    | ok users =>
      simp only [createGroups] at h
      cases h
      rfl

/-- A concrete completed round for the C7 witness. -/
def doneRound : Round :=
  { id := 1
    channel := "C0001"
    matchingScheduledFor := 0
    matchingCompleted := true
    allInitialMessagesSent := false
    reminderMessageScheduledFor := 700
    allReminderMessagesSent := false
    finalMessageScheduledFor := 1400
    allFinalMessagesSent := false
    summaryMessageScheduledFor := 1600
    summaryMessageTimestamp := none }

/-- Witness for C7: the completed `doneRound` is not selected at `now = 2000`
even though its scheduled instant has long passed. -/
theorem matching_not_selected_after_completion_witness :
    doneRound ∉ dueMatchingRounds [doneRound] 2000 :=
  (matching_not_selected_after_completion doneRound [doneRound] 2000 rfl).1

/-- C8: when the channel has zero eligible participants
(`getUsersToMatch` returns `Ok []`), `createGroups` still succeeds, creating
zero groups and setting `matchingCompleted = true`, so the round does not stay
perpetually due for matching. -/
theorem createGroups_empty_channel_completes (prevGroups : List Group)
    (rng : Rng) (round : Round) :
    createGroups (.ok []) prevGroups rng round =
      .ok ({ round with matchingCompleted := true }, []) ∧
    (∀ rounds now,
      { round with matchingCompleted := true } ∉ dueMatchingRounds rounds now) := by
  constructor
  · simp [createGroups, makeGroups]
  · intro rounds now hmem
    have := List.of_mem_filter hmem
    simp at this

/-! ## Dialogue (`src/dialogue.ts`) and the summary job (`SummaryMessageJob`) -/

/-- `formatUser` from `src/util/formatting.ts`. -/
def formatUser (user : String) : String := "<@" ++ user ++ ">"

/-- `formatEmoji` from `src/util/formatting.ts`. -/
def formatEmoji (emoji : String) : String := ":" ++ emoji ++ ":"

/-- `composeSummaryMessage(met, total)` from `src/dialogue.ts`. -/
def composeSummaryMessage (met total : Nat) : String :=
  let stats :=
    if total = 1 then
      if met = 0 then "the one group did not meet" else "the one group met"
    else
      toString met ++ " of the " ++ toString total ++ " groups met"
  "In the last round of muffins, " ++ stats ++ "."

/-- The per-status count the `GroupModel.aggregate` + `reduce` pipeline of
`SummaryMessageJob.run` produces for one round's groups: the number of groups
holding that status (statuses absent from the aggregation output default
to 0). -/
def countStatus (groups : List Group) (s : GroupStatus) : Nat :=
  (groups.filter fun g => g.status == s).length

/-- `const met = counts.met + counts.scheduled` in `SummaryMessageJob.run`. -/
def summaryMet (groups : List Group) : Nat :=
  countStatus groups .met + countStatus groups .scheduled

/-- `const total = met + counts.unknown + counts.did_not_meet`. -/
def summaryTotal (groups : List Group) : Nat :=
  summaryMet groups + countStatus groups .unknown + countStatus groups .did_not_meet

theorem sum_countStatus (groups : List Group) :
    countStatus groups .unknown + countStatus groups .met +
      countStatus groups .did_not_meet + countStatus groups .scheduled =
      groups.length := by
  induction groups with
  | nil => rfl
  | cons g rest ih =>
    cases hs : g.status <;>
      simp only [countStatus, List.filter_cons, hs, List.length_cons] at * <;>
      simp_all <;> omega

/-- A group of the demo round holding the given status. -/
def mkStatusGroup (s : GroupStatus) : Group :=
  { round := 2
    userIds := ["a", "b"]
    status := s
    channel := some "D0002"
    initialMessageTimestamp := some "100.000100"
    reminderMessageTimestamp := some "200.000200"
    finalMessageTimestamp := none }

/-- C9: the summary job reports `met` as `count(met) + count(scheduled)` and
`total` as the number of all groups of the round; three groups with statuses
met/scheduled/did_not_meet give `met = 2`, `total = 3` and the text
"2 of the 3 groups met", while a single met group gives the text
"the one group met". -/
theorem summaryMessage_aggregation (groups : List Group) :
    summaryTotal groups = groups.length ∧
    summaryMet groups = countStatus groups .met + countStatus groups .scheduled ∧
    summaryMet [mkStatusGroup .met, mkStatusGroup .scheduled,
      mkStatusGroup .did_not_meet] = 2 ∧
    summaryTotal [mkStatusGroup .met, mkStatusGroup .scheduled,
      mkStatusGroup .did_not_meet] = 3 ∧
    composeSummaryMessage 2 3 = "In the last round of muffins, 2 of the 3 groups met." ∧
    summaryMet [mkStatusGroup .met] = 1 ∧
    summaryTotal [mkStatusGroup .met] = 1 ∧
    composeSummaryMessage 1 1 = "In the last round of muffins, the one group met." := by
  refine ⟨?_, rfl, by decide, by decide, rfl, by decide, by decide, rfl⟩
  have := sum_countStatus groups
  simp only [summaryTotal, summaryMet]
  omega

/-! ## ScheduledDirectMessageJob (`src/jobs/jobs.ts`)

The three concrete jobs (initial / reminder / final) share one `run()` and
differ only in the round flag, the round instant, the per-group timestamp
field and whether a reaction menu is added.  `run()` queries the due rounds,
then for each round the groups still missing the phase timestamp **and** whose
status is `unknown` or `scheduled` (the status restriction sits in the shared
query, so it applies to the initial phase too), sends each message, stores the
returned direct-message channel (first send only) and timestamp on the group —
and never writes any round field. -/

inductive MessagePhase where
  | initial
  | reminder
  | final
deriving DecidableEq, Repr

/-- `roundMessagesSentField`: which `all…MessagesSent` flag gates the phase. -/
def roundMessagesSentField : MessagePhase → Round → Bool
  | .initial, r => r.allInitialMessagesSent
  | .reminder, r => r.allReminderMessagesSent
  | .final, r => r.allFinalMessagesSent

/-- `roundMessagesScheduledForField`: the initial phase fires at
`matchingScheduledFor`, the others at their own instants. -/
def roundMessagesScheduledForField : MessagePhase → Round → Int
  | .initial, r => r.matchingScheduledFor
  | .reminder, r => r.reminderMessageScheduledFor
  | .final, r => r.finalMessageScheduledFor

/-- `groupMessageTimestampField`: the per-group write-once timestamp of the
phase. -/
def groupMessageTimestampField : MessagePhase → Group → Option String
  | .initial, g => g.initialMessageTimestamp
  | .reminder, g => g.reminderMessageTimestamp
  | .final, g => g.finalMessageTimestamp

/-- Writing the phase's timestamp onto a group. -/
def setGroupMessageTimestamp : MessagePhase → Group → String → Group
  | .initial, g, ts => { g with initialMessageTimestamp := some ts }
  | .reminder, g, ts => { g with reminderMessageTimestamp := some ts }
  | .final, g, ts => { g with finalMessageTimestamp := some ts }

/-- `includeReactionMenu` of the three job classes. -/
def includeReactionMenu : MessagePhase → Bool
  | .initial => false
  | .reminder => true
  | .final => true

/-- The `RoundModel.find` of `run()`: rounds whose phase flag is still false
and whose phase instant has passed. -/
def dueRoundsForPhase (phase : MessagePhase) (rounds : List Round) (now : Int) :
    List Round :=
  rounds.filter fun r =>
    roundMessagesSentField phase r == false &&
    decide (roundMessagesScheduledForField phase r ≤ now)

/-- The filter of the `GroupModel.find` query in `run()`: the group belongs to
the round, the phase timestamp is unset (`null` matches unset fields), and —
per the comment "Only send messages if we don't know whether they met yet" —
the status is still `unknown` or `scheduled`. -/
def selectedForRound (phase : MessagePhase) (roundId : Nat) (g : Group) : Bool :=
  g.round == roundId &&
  (groupMessageTimestampField phase g).isNone &&
  (g.status == GroupStatus.unknown || g.status == GroupStatus.scheduled)

/-- The `GroupModel.find` of `run()`: groups of the round, with the phase
timestamp unset, whose status is still `unknown` or `scheduled`. -/
def selectGroupsForPhase (phase : MessagePhase) (roundId : Nat)
    (groups : List Group) : List Group :=
  groups.filter (selectedForRound phase roundId)

/-- The body of the per-group loop: on a successful send
`Result.ok (dmChannel, timestamp)` store the channel (only when unset) and the
phase timestamp; on failure leave the group untouched.  The second component
reports whether this item errored (a failed send, or — for phases with a
reaction menu — a failed `addReactions`, reported by `reactFails`). -/
def processGroup (phase : MessagePhase)
    (send : Group → Result (String × String) String)
    (reactFails : Group → Bool) (g : Group) : Group × Bool :=
  match send g with
  | .ok (dmChannel, timestamp) =>
    let g₁ := if g.channel = none then { g with channel := some dmChannel } else g
    (setGroupMessageTimestamp phase g₁ timestamp,
      includeReactionMenu phase && reactFails g)
  | .err _ => (g, true)

/-- One due round's pass of `run()`: each selected group is processed once;
unselected groups are untouched. -/
def runPhaseForRound (phase : MessagePhase)
    (send : Group → Result (String × String) String)
    (reactFails : Group → Bool) (r : Round)
    (acc : List Group × Bool) : List Group × Bool :=
  ((acc.1).map fun g =>
      if selectedForRound phase r.id g then (processGroup phase send reactFails g).1
      else g,
    acc.2 || (selectGroupsForPhase phase r.id acc.1).any fun g =>
      (processGroup phase send reactFails g).2)

/-- `ScheduledDirectMessageJob.run()`: process every due round in order.
Returns the rounds (which the job never writes), the updated groups, and the
`errored` flag.  Note the rounds come back verbatim: no code path sets the
round's `all…MessagesSent` flag. -/
def scheduledDirectMessageJobRun (phase : MessagePhase)
    (send : Group → Result (String × String) String)
    (reactFails : Group → Bool) (now : Int)
    (rounds : List Round) (groups : List Group) :
    List Round × List Group × Bool :=
  let processed := (dueRoundsForPhase phase rounds now).foldl
    (fun acc r => runPhaseForRound phase send reactFails r acc) (groups, false)
  (rounds, processed.1, processed.2)

/-- A round due for every message phase at `now = 100` (matching done, all
flags false, all instants already passed). -/
def dueRound0 : Round :=
  { id := 3
    channel := "C0003"
    matchingScheduledFor := 0
    matchingCompleted := true
    allInitialMessagesSent := false
    reminderMessageScheduledFor := 10
    allReminderMessagesSent := false
    finalMessageScheduledFor := 20
    allFinalMessagesSent := false
    summaryMessageScheduledFor := 30
    summaryMessageTimestamp := none }

/-- A freshly created group of `dueRound0`: status `unknown`, nothing sent. -/
def freshGroup0 : Group :=
  { round := 3
    userIds := ["a", "b"]
    status := .unknown
    channel := none
    initialMessageTimestamp := none
    reminderMessageTimestamp := none
    finalMessageTimestamp := none }

/-- A send environment in which every `sendDirectMessage` succeeds. -/
def sendOk : Group → Result (String × String) String :=
  fun _ => .ok ("D0003", "111.000111")

/-- C3: `ScheduledDirectMessageJob.run` returns the rounds verbatim — no code
path writes a round document, so `all<Phase>MessagesSent` is **never** set to
true, not even on a pass in which every selected group's send succeeded: in
the concrete run below the only group of the due round is stamped
successfully, the job reports no error, and the round's
`allInitialMessagesSent` is still false. -/
theorem scheduledJob_never_sets_round_flag :
    (∀ (phase : MessagePhase) (send : Group → Result (String × String) String)
      (reactFails : Group → Bool) (now : Int) (rounds : List Round)
      (groups : List Group),
      (scheduledDirectMessageJobRun phase send reactFails now rounds groups).1 =
        rounds) ∧
    scheduledDirectMessageJobRun .initial sendOk (fun _ => false) 100
        [dueRound0] [freshGroup0] =
      ([dueRound0],
       [{ freshGroup0 with
            channel := some "D0003"
            initialMessageTimestamp := some "111.000111" }],
       false) ∧
    dueRound0.allInitialMessagesSent = false := by
  refine ⟨fun _ _ _ _ _ _ => rfl, by decide, rfl⟩

/-- A group of `dueRound0` already resolved as met, with no initial message
timestamp. -/
def metNoInit : Group :=
  { round := 3
    userIds := ["a", "b"]
    status := .met
    channel := some "D0003"
    initialMessageTimestamp := none
    reminderMessageTimestamp := none
    finalMessageTimestamp := none }

/-- C5 counterexample: the initial message phase does **not** select every
group lacking an initial timestamp regardless of status — a group whose
status is already `met` (and whose initial timestamp is unset) is skipped by
the shared status filter, and a full run leaves it untouched. -/
theorem initialPhase_skips_met_group :
    metNoInit.initialMessageTimestamp = none ∧
    selectGroupsForPhase .initial 3 [metNoInit] = [] ∧
    (scheduledDirectMessageJobRun .initial sendOk (fun _ => false) 100
      [dueRound0] [metNoInit]).2.1 = [metNoInit] := by
  refine ⟨rfl, by decide, by decide⟩

/-- C5 (amended): in **all three** message phases — the initial phase
included — a group is selected for dispatch iff it belongs to the round, its
phase timestamp is unset, and its status is still `unknown` or `scheduled`;
the status restriction is in the shared query, not special to reminder/final
(for the initial phase it is vacuous in practice, since groups are created
with status `unknown` and the reaction menu only exists on later messages). -/
theorem selectGroups_characterization (phase : MessagePhase) (roundId : Nat)
    (groups : List Group) (g : Group) :
    g ∈ selectGroupsForPhase phase roundId groups ↔
      g ∈ groups ∧ g.round = roundId ∧
      groupMessageTimestampField phase g = none ∧
      (g.status = .unknown ∨ g.status = .scheduled) := by
  simp [selectGroupsForPhase, selectedForRound, List.mem_filter,
    Option.isNone_iff_eq_none, and_assoc]

/-! ## Reaction handler (`src/handlers/reaction.ts`) -/

/-- `REACTION_TO_GROUP_STATUS` from `src/dialogue.ts`, as the partial lookup
the handler performs (`reaction in REACTION_TO_GROUP_STATUS`). -/
def REACTION_TO_GROUP_STATUS (reaction : String) : Option GroupStatus :=
  if reaction = "white_check_mark" then some .met
  else if reaction = "calendar" then some .scheduled
  else if reaction = "x" then some .did_not_meet
  else none

/-- `composeReactionMenuReply(user, status)` from `src/dialogue.ts` (the
`unknown` case cannot be produced by the reaction map; the original's type
excludes it). -/
def composeReactionMenuReply (user : String) (status : GroupStatus) : String :=
  let youSaid := formatUser user ++ " said"
  let description :=
    match status with
    | .met => "you met! " ++ formatEmoji "cupcake"
    | .scheduled => "it\x27s scheduled! " ++ formatEmoji "cupcake"
    | .did_not_meet => "you didn\x27t meet."
    | .unknown => ""
  youSaid ++ " " ++ description

/-- The `GroupModel.findOne` filter of the handler: the group's stored
direct-message channel is the reaction's channel and the reacted-to message is
its reminder or final message. -/
def reactionMenuGroupMatch (channel timestamp : String) (g : Group) : Bool :=
  g.channel == some channel &&
  (g.reminderMessageTimestamp == some timestamp ||
   g.finalMessageTimestamp == some timestamp)

/-- `findOne` followed by mutating the found document: rewrite the first list
element satisfying `p` with `f`, leaving everything else in place. -/
def updateFirst {α : Type} (p : α → Bool) (f : α → α) : List α → List α
  | [] => []
  | x :: xs => if p x then f x :: xs else x :: updateFirst p f xs

/-- `onReactionAddedToMessage(app, user, channel, timestamp, reaction)`: on a
non-menu reaction or no matching group, do nothing; otherwise set the matched
group's status and send one acknowledgement message to the reaction's channel.
Returns the rounds (untouched by the handler), the groups, and the list of
messages sent as (channel, text) pairs. -/
def onReactionAddedToMessage (user channel timestamp reaction : String)
    (rounds : List Round) (groups : List Group) :
    List Round × List Group × List (String × String) :=
  match REACTION_TO_GROUP_STATUS reaction with
  | none => (rounds, groups, [])
  | some status =>
    match groups.find? (reactionMenuGroupMatch channel timestamp) with
    | none => (rounds, groups, [])
    | some _ =>
      (rounds,
       updateFirst (reactionMenuGroupMatch channel timestamp)
         (fun g => { g with status := status }) groups,
       [(channel, composeReactionMenuReply user status)])

theorem updateFirst_spec {α : Type} (p : α → Bool) (f : α → α) :
    ∀ l : List α,
      (l.find? p = none → updateFirst p f l = l) ∧
      (∀ a, l.find? p = some a →
        ∃ pre post, l = pre ++ a :: post ∧
          (∀ b ∈ pre, p b = false) ∧ p a = true ∧
          updateFirst p f l = pre ++ f a :: post)
  | [] => ⟨fun _ => rfl, fun a ha => by cases ha⟩
  | x :: xs => by
    by_cases hx : p x
    · refine ⟨fun h => ?_, fun a ha => ?_⟩
      · rw [List.find?_cons_of_pos _ hx] at h
        cases h
      · rw [List.find?_cons_of_pos _ hx] at ha
        cases ha
        exact ⟨[], xs, rfl, by simp, hx, by simp [updateFirst, hx]⟩
    · obtain ⟨ihnone, ihsome⟩ := updateFirst_spec p f xs
      refine ⟨fun h => ?_, fun a ha => ?_⟩
      · rw [List.find?_cons_of_neg _ hx] at h
        simp [updateFirst, hx, ihnone h]
      · rw [List.find?_cons_of_neg _ hx] at ha
        obtain ⟨pre, post, hsplit, hpre, hpa, hupd⟩ := ihsome a ha
        refine ⟨x :: pre, post, by simp [hsplit], ?_, hpa, ?_⟩
        · intro b hb
          rcases List.mem_cons.mp hb with rfl | hb
          · simpa using hx
          · exact hpre b hb
        · simp [updateFirst, hx, hupd]

/-- C10: the reaction handler never touches rounds; a non-menu reaction or an
unmatched channel/timestamp changes nothing and sends nothing; when a group
matches, the first matching group has exactly its `status` field replaced
(membership, channel, and all three message timestamps unchanged), every
other group is untouched, and exactly one acknowledgement message is sent. -/
theorem onReactionAddedToMessage_spec (user channel timestamp reaction : String)
    (rounds : List Round) (groups : List Group) :
    (onReactionAddedToMessage user channel timestamp reaction rounds groups).1 =
      rounds ∧
    (REACTION_TO_GROUP_STATUS reaction = none →
      onReactionAddedToMessage user channel timestamp reaction rounds groups =
        (rounds, groups, [])) ∧
    (groups.find? (reactionMenuGroupMatch channel timestamp) = none →
      onReactionAddedToMessage user channel timestamp reaction rounds groups =
        (rounds, groups, [])) ∧
    (∀ status g, REACTION_TO_GROUP_STATUS reaction = some status →
      groups.find? (reactionMenuGroupMatch channel timestamp) = some g →
      ∃ pre post, groups = pre ++ g :: post ∧
        (∀ b ∈ pre, reactionMenuGroupMatch channel timestamp b = false) ∧
        reactionMenuGroupMatch channel timestamp g = true ∧
        onReactionAddedToMessage user channel timestamp reaction rounds groups =
          (rounds, pre ++ { g with status := status } :: post,
           [(channel, composeReactionMenuReply user status)])) := by
  refine ⟨?_, ?_, ?_, ?_⟩
  · unfold onReactionAddedToMessage
    cases REACTION_TO_GROUP_STATUS reaction with
    | none => rfl
    | some status =>
      cases groups.find? (reactionMenuGroupMatch channel timestamp) with
      | none => rfl
      | some g => rfl
  · intro h
    unfold onReactionAddedToMessage
    rw [h]
  · intro h
    unfold onReactionAddedToMessage
    cases REACTION_TO_GROUP_STATUS reaction with
    | none => rfl
    | some status => rw [h]
  · intro status g hstatus hfind
    obtain ⟨pre, post, hsplit, hpre, hpg, hupd⟩ :=
      (updateFirst_spec (reactionMenuGroupMatch channel timestamp)
        (fun g => { g with status := status }) groups).2 g hfind
    refine ⟨pre, post, hsplit, hpre, hpg, ?_⟩
    simp only [onReactionAddedToMessage, hstatus, hfind, hupd]

/-- Witness for C10: a calendar reaction on `mkStatusGroup .met`'s reminder
message flips exactly that group's status to `scheduled` and sends one
acknowledgement. -/
theorem onReactionAddedToMessage_spec_witness :
    onReactionAddedToMessage "u9" "D0002" "200.000200" "calendar"
        [doneRound] [mkStatusGroup .met] =
      ([doneRound], [mkStatusGroup .scheduled],
       [("D0002", composeReactionMenuReply "u9" .scheduled)]) := by
  obtain ⟨pre, post, hsplit, _, _, hres⟩ :=
    (onReactionAddedToMessage_spec "u9" "D0002" "200.000200" "calendar"
      [doneRound] [mkStatusGroup .met]).2.2.2 .scheduled (mkStatusGroup .met)
      (by decide) (by decide)
  have hpre : pre = [] := by
    cases pre with
    | nil => rfl
    | cons a l =>
      have := congrArg List.length hsplit
      simp at this
  subst hpre
  have hpost : post = [] := by
    cases post with
    | nil => rfl
    | cons a l =>
      have := congrArg List.length hsplit
      simp at this
  subst hpost
  rw [hres]
  rfl

/-! ## Previous pairings (`getPreviousPairings` in `src/services/round.ts`)

`GroupModel.find({ channel }).sort({ initialMessageTimestamp: -1 }).limit(50)`:
filter the group documents on their `channel` field — which per the data model
is the group's *direct-message* conversation, not the round's channel — sort
by `initialMessageTimestamp` descending (unset last) and keep the first 50.
The sort is modelled by a stable insertion sort, which suffices for the
contract "most recent first, at most 50". -/

/-- Descending-timestamp order: `a` comes no later than `b` when `a`'s
timestamp is at least `b`'s (unset timestamps sort last). -/
def tsDescLe (a b : Group) : Bool :=
  match a.initialMessageTimestamp, b.initialMessageTimestamp with
  | _, none => true
  | none, some _ => false
  | some x, some y => decide (y ≤ x)

def insertByTsDesc (g : Group) : List Group → List Group
  | [] => [g]
  | h :: t => if tsDescLe g h then g :: h :: t else h :: insertByTsDesc g t

def sortByTsDesc : List Group → List Group
  | [] => []
  | h :: t => insertByTsDesc h (sortByTsDesc t)

/-- `getPreviousPairings(channel)`, called by `createGroups` with the round's
channel. -/
def getPreviousPairings (db : List Group) (channel : String) : List Group :=
  (sortByTsDesc (db.filter fun g => g.channel == some channel)).take 50

/-- The history §4.2 of the spec describes: the most recent (up to) 50 prior
Groups *of that round's channel*, i.e. groups whose owning round lives in the
given channel, most-recent-first. -/
def specChannelHistory (rounds : List Round) (db : List Group)
    (channel : String) : List Group :=
  (sortByTsDesc (db.filter fun g =>
    ((rounds.find? fun r => r.id == g.round).map Round.channel) ==
      some channel)).take 50

theorem mem_insertByTsDesc (g a : Group) :
    ∀ l : List Group, a ∈ insertByTsDesc g l ↔ a = g ∨ a ∈ l
  | [] => by simp [insertByTsDesc]
  | h :: t => by
    by_cases hle : tsDescLe g h
    · simp [insertByTsDesc, hle]
    · simp [insertByTsDesc, hle, mem_insertByTsDesc g a t]
      tauto

theorem mem_sortByTsDesc (a : Group) :
    ∀ l : List Group, a ∈ sortByTsDesc l ↔ a ∈ l
  | [] => Iff.rfl
  | h :: t => by
    simp [sortByTsDesc, mem_insertByTsDesc, mem_sortByTsDesc a t]

/-- A round of channel `C0004` whose matching already ran. -/
def histRound : Round :=
  { id := 4
    channel := "C0004"
    matchingScheduledFor := 0
    matchingCompleted := true
    allInitialMessagesSent := false
    reminderMessageScheduledFor := 10
    allReminderMessagesSent := false
    finalMessageScheduledFor := 20
    allFinalMessagesSent := false
    summaryMessageScheduledFor := 30
    summaryMessageTimestamp := none }

/-- A prior group of `histRound`: its `channel` field holds the
direct-message conversation `D0004` it was messaged in, as the data model
prescribes — never the round's channel `C0004`. -/
def histGroup : Group :=
  { round := 4
    userIds := ["a", "b"]
    status := .met
    channel := some "D0004"
    initialMessageTimestamp := some "050.000050"
    reminderMessageTimestamp := none
    finalMessageTimestamp := none }

/-- A previous group whose member IDs concatenate ambiguously. -/
def collisionGroup : Group :=
  { round := 4
    userIds := ["ab", "c"]
    status := .met
    channel := some "D0005"
    initialMessageTimestamp := some "060.000060"
    reminderMessageTimestamp := none
    finalMessageTimestamp := none }

/-- C4: the pairing history `createGroups` passes to `makeGroups` is **not**
the channel's prior groups.  (i) The query matches the group's stored
direct-message channel against the round's channel: every returned group would
need `g.channel = some channel`, and the sole prior group of `C0004` (whose
DM channel is `D0004`) yields an empty history where the spec's reading yields
that group — the anti-repeat input is empty.  (ii) Independently, the derived
previously-paired set keys bare string concatenations, so it contains a key
for the unordered pair {"a", "bc"} (namely "abc" = "ab" + "c") although no
history group contains both "a" and "bc". -/
theorem getPreviousPairings_wrong_population :
    (∀ db ch g, g ∈ getPreviousPairings db ch → g.channel = some ch) ∧
    histGroup.round = histRound.id ∧
    histRound.channel = "C0004" ∧
    getPreviousPairings [histGroup] "C0004" = [] ∧
    specChannelHistory [histRound] [histGroup] "C0004" = [histGroup] ∧
    (prevPairsSet [collisionGroup]).contains ("a" ++ "bc") = true ∧
    "a" ∉ collisionGroup.userIds ∧ "bc" ∉ collisionGroup.userIds := by
  refine ⟨?_, rfl, rfl, by decide, by decide, by decide, by decide, by decide⟩
  intro db ch g hg
  have hmem : g ∈ sortByTsDesc (db.filter fun g => g.channel == some ch) := by
    exact List.mem_of_mem_take hg
  have := List.of_mem_filter ((mem_sortByTsDesc g _).mp hmem)
  simpa using this
